import Mathlib

/-!
Verification of the conversation-turn orchestration engine in
`backend/core/agentpress/thread_manager.py`.

The Python source is shallowly embedded: each dictionary-shaped message is a
`Message` record carrying the fields the engine reads (`role`, `content`,
`message_id`, and a cache-mark bit standing for the provider cache
annotations); collaborator calls that can raise are functions into
`Except String`; the `try/except` blocks of the source become `match`es on
those `Except` values.  Collaborators whose code lives outside the sources at
hand (the cache annotator of `core/utils/llm_cache_utils` and the context
compressor of `core/agentpress/context_manager`) are modelled from the design
document's contracts, as marked on their definitions.
-/

/-- A role-tagged chat message as the engine sees it: a Python dict whose
fields of interest are `role` (absent keys read as `None`, hence `Option`),
an opaque `content` payload, the attached `message_id`, and a boolean
standing for provider cache-annotation marks placed on the content. -/
structure Message where
  role : Option String
  content : String
  message_id : Option String := none
  cacheMarked : Bool := false
deriving DecidableEq, Repr

/-- Forget cache-annotation marks; used to compare messages up to the
annotations that `apply_cache_to_messages` / `validate_cache_blocks` add. -/
def stripMark (m : Message) : Message := { m with cacheMarked := false }

/-- Safe token limit derived from the model's context window
(`thread_manager.py`, lines 575–580): `168_000` for windows of at least
`200_000`, `window - 20_000` for windows of at least `100_000`, else
`window - 10_000`. -/
def safe_limit (context_window : Int) : Int :=
  if context_window ≥ 200000 then 168000
  else if context_window ≥ 100000 then context_window - 20000
  else context_window - 10000

/-- The defensive system-message collapse loop (`thread_manager.py`,
lines 605–614): keep only the first `system`-role message, dropping the
rest, preserving everything else in order. -/
def keepFirstSystem : List Message → Bool → List Message
  | [], _ => []
  | m :: rest, found =>
    if m.role == some "system" then
      if found then keepFirstSystem rest found
      else m :: keepFirstSystem rest true
    else m :: keepFirstSystem rest found

/-- The defensive invariant check of `_run_once` (`thread_manager.py`,
lines 602–615): count `system`-role messages; if more than one survived,
keep only the first. -/
def dedupSystem (msgs : List Message) : List Message :=
  if (msgs.filter (fun m => m.role == some "system")).length > 1 then
    keepFirstSystem msgs false
  else msgs

/-- Events recording which budget operations `_run_once` performed, in
order: a successful token count, the primary compression pass with its
token target, the omission pass with its token target. -/
inductive BudgetEvent where
  | counted (n : Nat)
  | primary (target : Int)
  | omission (target : Int)
deriving DecidableEq, Repr

/-- The token-budget block of `_run_once` (`thread_manager.py`,
lines 566–600).  `tc` is `litellm.utils.token_counter` (it may raise, and
the whole block sits in a `try` whose `except` merely logs): count the
prepared request; if the count exceeds the safe limit derived from the
context window, run `compress_messages` targeting the safe limit; recount;
if still over, run `compress_messages_by_omitting_messages` targeting
`safe_limit - 10_000` and do not count again.  The returned event list
records what was invoked. -/
def budgetBlock (tc : List Message → Except String Nat) (context_window : Int)
    (compress : List Message → Int → List Message)
    (omitPass : List Message → Int → List Message)
    (prepared : List Message) : List Message × List BudgetEvent :=
  match tc prepared with
  | .error _ => (prepared, [])
  | .ok final =>
    let safe := safe_limit context_window
    if (final : Int) > safe then
      let c := compress prepared safe
      match tc c with
      | .error _ => (c, [.counted final, .primary safe])
      | .ok cc =>
        if (cc : Int) > safe then
          (omitPass c (safe - 10000),
           [.counted final, .primary safe, .counted cc, .omission (safe - 10000)])
        else (c, [.counted final, .primary safe, .counted cc])
    else (prepared, [.counted final])

/-- C1 counterexample: the claim says a window of `300_000 ≥ 200_000` yields
safe limit `300_000 - 32_000 = 268_000`, but the code fixes `168_000` for
every window of at least `200_000`. -/
theorem C1_safe_limit_counterexample :
    safe_limit 300000 ≠ 300000 - 32000 := by decide

/-- C1 (amended): for windows `W ≥ 200_000` the safe limit is the constant
`168_000` (equal to `W - 32_000` only at `W = 200_000`); for
`100_000 ≤ W < 200_000` it is `W - 20_000`; for `W < 100_000` it is
`W - 10_000`. -/
theorem C1_safe_limit_tiers (W : Int) :
    (W ≥ 200000 → safe_limit W = 168000) ∧
    (100000 ≤ W ∧ W < 200000 → safe_limit W = W - 20000) ∧
    (W < 100000 → safe_limit W = W - 10000) := by
  refine ⟨fun h => ?_, fun h => ?_, fun h => ?_⟩
  · simp [safe_limit, h]
  · have h1 : ¬ (W ≥ 200000) := by omega
    have h2 : W ≥ 100000 := h.1
    simp [safe_limit, h1, h2]
  · have h1 : ¬ (W ≥ 200000) := by omega
    have h2 : ¬ (W ≥ 100000) := by omega
    simp [safe_limit, h1, h2]

/-- C1 witness: the three tiers evaluated at the concrete windows
`250_000`, `150_000` and `50_000`. -/
theorem C1_safe_limit_tiers_witness :
    safe_limit 250000 = 168000 ∧ safe_limit 150000 = 130000 ∧
    safe_limit 50000 = 40000 := by
  refine ⟨(C1_safe_limit_tiers 250000).1 (by decide),
    ?_, ?_⟩
  · have h := (C1_safe_limit_tiers 150000).2.1 ⟨by decide, by decide⟩
    omega
  · have h := (C1_safe_limit_tiers 50000).2.2 (by decide)
    omega

/-- The `usage` sub-dictionary of an `assistant_response_end` content record
(`thread_manager.py`, lines 176–180).  Each field is `Option Int`: an absent
key or a JSON `null` both read as `0` via `int(usage.get(k, 0) or 0)`. -/
structure UsageDict where
  prompt_tokens : Option Int := none
  completion_tokens : Option Int := none
  cache_read_input_tokens : Option Int := none
  cache_creation_input_tokens : Option Int := none
deriving DecidableEq, Repr

/-- The content dictionary of an `assistant_response_end` message: an
optional `usage` sub-dictionary and an optional `model` name. -/
structure ContentDict where
  usage : Option UsageDict := none
  model : Option String := none
deriving DecidableEq, Repr

/-- The `Union[Dict, List, str]` content parameter of `add_message`. -/
inductive MsgContent where
  | dict (d : ContentDict)
  | str (s : String)
  | list (items : List String)
deriving DecidableEq, Repr

/-- `int(usage.get(key, 0) or 0)`: missing dictionary, missing key, or a
`None` value all give `0`. -/
def usageField (u : Option UsageDict) (f : UsageDict → Option Int) : Int :=
  match u with
  | some d => (f d).getD 0
  | none => 0

/-- Python `model or "unknown"` (`thread_manager.py`, line 199): `None` and
the empty string are falsy and fall back to `"unknown"`. -/
def modelOrUnknown (s : Option String) : String :=
  match s with
  | some v => if v == "" then "unknown" else v
  | none => "unknown"

/-- The argument record of one `billing_integration.deduct_usage` call
(`thread_manager.py`, lines 195–203). -/
structure DeductArgs where
  account_id : String
  prompt_tokens : Int
  completion_tokens : Int
  model : String
  message_id : String
  cache_read_tokens : Int
  cache_creation_tokens : Int
deriving DecidableEq, Repr

/-- Result dictionary of `deduct_usage`; only the `success` flag is read. -/
structure DeductResult where
  success : Bool
deriving DecidableEq, Repr

/-- The collaborators `add_message` touches: the `messages` insert (raising,
or returning a row with a `message_id`, or returning no usable row), the
`threads.account_id` lookup (raising, or returning the owning account or
`None`), and the billing deduction (raising or returning a result). -/
structure AddMessageEnv where
  insert : Except String (Option String)
  threadLookup : Except String (Option String)
  deduct : DeductArgs → Except String DeductResult

/-- `ThreadManager.add_message` (`thread_manager.py`, lines 127–221),
shallowly embedded.  The returned value is `Except`: a raising insert is
re-raised (lines 219–221); otherwise the saved row's `message_id` (or
`none` when the insert returned no usable row) together with the trace of
billing-deduction calls performed.  For a persisted
`assistant_response_end` dict, the usage figures are extracted, the owning
account is looked up, and — when the account resolves and prompt or
completion tokens are nonzero — `deduct_usage` is called once; its failure
(`success = false`) or raising is only logged (lines 205–214), so the
saved row is returned either way. -/
def add_message (msgType : String) (content : MsgContent) (env : AddMessageEnv) :
    Except String (Option String × List DeductArgs) :=
  match env.insert with
  | .error e => .error e
  | .ok none => .ok (none, [])
  | .ok (some mid) =>
    if msgType == "assistant_response_end" then
      match content with
      | .dict d =>
        let pt := usageField d.usage UsageDict.prompt_tokens
        let ct := usageField d.usage UsageDict.completion_tokens
        let crt := usageField d.usage UsageDict.cache_read_input_tokens
        let cct := usageField d.usage UsageDict.cache_creation_input_tokens
        match env.threadLookup with
        | .error _ => .ok (some mid, [])
        | .ok none => .ok (some mid, [])
        | .ok (some uid) =>
          if pt > 0 ∨ ct > 0 then
            let args : DeductArgs :=
              { account_id := uid, prompt_tokens := pt, completion_tokens := ct,
                model := modelOrUnknown d.model, message_id := mid,
                cache_read_tokens := crt, cache_creation_tokens := cct }
            match env.deduct args with
            | .ok _ => .ok (some mid, [args])
            | .error _ => .ok (some mid, [args])
          else .ok (some mid, [])
      | _ => .ok (some mid, [])
    else .ok (some mid, [])

/-- C3: for a persisted `assistant_response_end` dict whose usage carries
nonzero prompt or completion tokens and whose thread resolves to an owning
account, `add_message` calls the billing deduction exactly once, with
exactly the persisted figures (prompt, completion, cache-read,
cache-creation tokens, model, message id), and returns the saved row
whatever the deduction returns or raises (the result does not depend on
the `deduct` collaborator at all). -/
theorem C3_billing_exactly_once (env : AddMessageEnv) (d : ContentDict)
    (mid uid : String)
    (hins : env.insert = .ok (some mid))
    (hacct : env.threadLookup = .ok (some uid))
    (htok : usageField d.usage UsageDict.prompt_tokens > 0 ∨
            usageField d.usage UsageDict.completion_tokens > 0) :
    add_message "assistant_response_end" (.dict d) env =
      .ok (some mid,
        [{ account_id := uid,
           prompt_tokens := usageField d.usage UsageDict.prompt_tokens,
           completion_tokens := usageField d.usage UsageDict.completion_tokens,
           model := modelOrUnknown d.model,
           message_id := mid,
           cache_read_tokens := usageField d.usage UsageDict.cache_read_input_tokens,
           cache_creation_tokens := usageField d.usage UsageDict.cache_creation_input_tokens }]) ∧
    (∀ deduct1 deduct2 : DeductArgs → Except String DeductResult,
      add_message "assistant_response_end" (.dict d) { env with deduct := deduct1 } =
      add_message "assistant_response_end" (.dict d) { env with deduct := deduct2 }) := by
  constructor
  · simp only [add_message, hins, hacct, beq_self_eq_true, if_true, if_pos htok]
    cases h : env.deduct _ <;> simp
  · intro d1 d2
    simp only [add_message, hins, hacct, beq_self_eq_true, if_true, if_pos htok]
    cases h1 : d1 _ <;> cases h2 : d2 _ <;> simp

/-- C3 witness: the design document's scenario — usage
`prompt_tokens = 100`, `completion_tokens = 50`,
`cache_read_input_tokens = 20`, resolvable account — against a deduction
that raises: the call trace holds exactly those figures and the saved row
is still returned. -/
theorem C3_billing_exactly_once_witness :
    add_message "assistant_response_end"
      (.dict { usage := some { prompt_tokens := some 100,
                               completion_tokens := some 50,
                               cache_read_input_tokens := some 20 },
               model := some "claude-sonnet-4-20250514" })
      { insert := .ok (some "m1"), threadLookup := .ok (some "acct1"),
        deduct := fun _ => .error "billing backend down" } =
      .ok (some "m1",
        [{ account_id := "acct1", prompt_tokens := 100, completion_tokens := 50,
           model := "claude-sonnet-4-20250514", message_id := "m1",
           cache_read_tokens := 20, cache_creation_tokens := 0 }]) := by
  have h := C3_billing_exactly_once
    { insert := .ok (some "m1"), threadLookup := .ok (some "acct1"),
      deduct := fun _ => .error "billing backend down" }
    { usage := some { prompt_tokens := some 100, completion_tokens := some 50,
                      cache_read_input_tokens := some 20 },
      model := some "claude-sonnet-4-20250514" }
    "m1" "acct1" rfl rfl (by left; decide)
  exact h.1

/-- The dictionary shape read out of a stored message's content: the fields
the regular path reads (`role`, plus the remaining payload kept opaque) and
the fields the `image_context` path reads (`base64`, `mime_type`,
`file_path`), each `Option` for dictionary `get` semantics. -/
structure RawContent where
  role : Option String := none
  text : String := ""
  base64 : Option String := none
  mime_type : Option String := none
  file_path : Option String := none
deriving DecidableEq, Repr

/-- A stored row's content column: either a JSON object, or a string whose
`json.loads` outcome is recorded (`none` standing for `JSONDecodeError`). -/
inductive StoredContent where
  | str (parsed : Option RawContent)
  | obj (v : RawContent)
deriving DecidableEq, Repr

/-- One row of the `messages` table as selected by `get_llm_messages`
(`message_id, type, content`). -/
structure StoredItem where
  message_id : String
  type : String
  content : StoredContent
deriving DecidableEq, Repr

/-- Content access shared by both branches of
`_process_image_context_message`: a string content is its parse result, an
object content is itself. -/
def getContentDict : StoredContent → Option RawContent
  | .str parsed => parsed
  | .obj v => some v

/-- `ThreadManager._process_image_context_message` (`thread_manager.py`,
lines 299–355): turn an `image_context` row into a user-role vision
message, or `none` when the content does not parse, is not a dict, or has
no (truthy) `base64` payload.  The structured text+image content is
rendered here as one opaque string. -/
def processImageContextMessage (item : StoredItem) : Option Message :=
  match getContentDict item.content with
  | none => none
  | some c =>
    match c.base64 with
    | none => none
    | some b64 =>
      if b64 == "" then none
      else
        some { role := some "user",
               content := "Here is the image from " ++ c.file_path.getD "image" ++
                 " that you requested to see: data:" ++
                 c.mime_type.getD "image/jpeg" ++ ";base64," ++ b64,
               message_id := some item.message_id }

/-- A regular row's parsed content with the row's `message_id` attached
(`parsed_item['message_id'] = item['message_id']`). -/
def rawToMessage (c : RawContent) (mid : String) : Message :=
  { role := c.role, content := c.text, message_id := some mid }

/-- The parsing loop of `get_llm_messages` (`thread_manager.py`,
lines 269–293): `image_context` rows go through
`_process_image_context_message` (skipped when it yields nothing); string
contents failing `json.loads` are logged and skipped; everything else is
appended with its `message_id`. -/
def processItems : List StoredItem → List Message
  | [] => []
  | item :: rest =>
    if item.type == "image_context" then
      match processImageContextMessage item with
      | some m => m :: processItems rest
      | none => processItems rest
    else
      match item.content with
      | .str none => processItems rest
      | .str (some c) => rawToMessage c item.message_id :: processItems rest
      | .obj c => rawToMessage c item.message_id :: processItems rest

/-- `ThreadManager.get_llm_messages` (`thread_manager.py`, lines 223–297).
`fetchAll` stands for the paged `messages`-table read (batches of 1000,
concatenated); any exception out of the fetch or the parsing loop is
caught, logged, and turned into the empty list. -/
def get_llm_messages (fetchAll : Except String (List StoredItem)) : List Message :=
  match fetchAll with
  | .error _ => []
  | .ok raw => processItems raw

/-- C10: a storage failure during the history fetch is caught inside
`get_llm_messages`, which returns the empty list instead of raising; at
the public interface a failed read is indistinguishable from reading an
empty thread. -/
theorem C10_history_fetch_failure_gives_empty (e : String) :
    get_llm_messages (.error e) = [] ∧
    get_llm_messages (.error e) = get_llm_messages (.ok []) := by
  exact ⟨rfl, rfl⟩

/-- A normalized response chunk, the closed tagged-variant the design
document prescribes for the loosely-typed chunk dictionaries: content
deltas, tool-call chunks, finish markers carrying `finish_reason`, status
markers whose embedded JSON payload is decoded once at construction into
an optional `finish_reason` (`statusBad` stands for a status chunk whose
`content` does not `json.loads`, carrying the exception text), and the
`{type: status, status: error, message}` dictionaries the engine itself
emits. -/
inductive Chunk where
  | content (text : String)
  | toolCall (payload : String)
  | finish (finish_reason : Option String)
  | status (embeddedFinish : Option String)
  | statusBad (exnText : String)
  | statusError (message : String)
deriving DecidableEq, Repr

/-- The collaborators and per-iteration state `_run_once` reads
(`thread_manager.py`, lines 500–708): the paged history fetch feeding
`get_llm_messages`, the engine's own system prompt
(`working_system_prompt`), the auto-continue iteration count and the
accumulated partial content of `continuous_state`, the token counter, the
resolved context window, the cache annotator pair, the two compression
passes, the unused temporary message, the raw LLM transport, and the
response-stream interpreter.  Raising collaborators return
`Except.error`. -/
structure RunEnv where
  fetchAll : Except String (List StoredItem)
  sysPrompt : Message
  autoCount : Nat
  accumulated : String
  tokenCounter : List Message → Except String Nat
  contextWindow : Int
  applyCache : List Message → List Message
  validateCache : List Message → List Message
  compress : List Message → Int → List Message
  compressOmit : List Message → Int → List Message
  tempMsg : Option Message
  llmCall : List Message → Except String String
  interpret : String → List Message → Except String (List Chunk)

/-- Step 1 of the request preparation (`thread_manager.py`, lines 516–520):
drop every `system`-role message from the fetched thread history — the
engine's own system prompt is authoritative. -/
def filteredHistory (hist : List Message) : List Message :=
  hist.filter (fun m => !(m.role == some "system"))

/-- Steps 2–3 of the preparation (`thread_manager.py`, lines 533–553): the
system prompt leads, the filtered history follows, and when a prior
auto-continue iteration accumulated (truthy) partial content it is
appended as a synthetic assistant message. -/
def initialPrepared (env : RunEnv) (hist : List Message) : List Message :=
  if 0 < env.autoCount && !(env.accumulated == "") then
    (env.sysPrompt :: filteredHistory hist) ++
      [{ role := some "assistant", content := env.accumulated }]
  else env.sysPrompt :: filteredHistory hist

/-- The pre-check token count (`thread_manager.py`, lines 522–531):
`token_counter` over `[working_system_prompt] + messages`; a raising
counter is logged and the count stays `0`. -/
def initialTokenCount (env : RunEnv) (hist : List Message) : Nat :=
  match env.tokenCounter (env.sysPrompt :: filteredHistory hist) with
  | .ok n => n
  | .error _ => 0

/-- The cache-annotation step (`thread_manager.py`, lines 560–564): below
the `80_000`-token pre-check threshold, apply cache annotation and
validate the cache blocks; at or above it, skip annotation. -/
def annotatedPrepared (env : RunEnv) (hist : List Message) : List Message :=
  if initialTokenCount env hist < 80000 then
    env.validateCache (env.applyCache (initialPrepared env hist))
  else initialPrepared env hist

/-- The full request-preparation pipeline of `_run_once`
(`thread_manager.py`, lines 506–615): filter, lead with the system prompt,
append accumulated partial content, annotate below the pre-check
threshold, run the token-budget block, and finally collapse to a single
leading system message if more than one survived.  The `temp_msg`
parameter of `_run_once` is accepted but never used anywhere in this
pipeline. -/
def prepare_messages (env : RunEnv) (hist : List Message) : List Message :=
  dedupSystem
    (budgetBlock env.tokenCounter env.contextWindow env.compress
      env.compressOmit (annotatedPrepared env hist)).1

/-- What `_run_once` hands back to the driver: the interpreter's normalized
chunk stream, or — when an exception escaped the body — the terminal
`{type: status, status: error, message}` dictionary built by the
`except` clause at lines 701–708. -/
inductive RunOnceOutcome where
  | stream (chunks : List Chunk)
  | errorDict (message : String)
deriving DecidableEq, Repr

/-- `_run_once` (`thread_manager.py`, lines 500–708): fetch history, prepare
the bounded request, call the transport, hand the raw result to the
response interpreter; any exception raised by the transport or the
interpreter hand-off reaches the enclosing `try` and is returned as the
error dictionary (token-counting and compression exceptions were already
swallowed inside `prepare_messages`, and history-fetch failures inside
`get_llm_messages`). -/
def run_once (env : RunEnv) : RunOnceOutcome :=
  let hist := get_llm_messages env.fetchAll
  let prepared := prepare_messages env hist
  match env.llmCall prepared with
  | .error e => .errorDict e
  | .ok resp =>
    match env.interpret resp prepared with
    | .error e => .errorDict e
    | .ok chunks => .stream chunks

/-- C9: `_run_once` accepts the temporary-message parameter but never uses
it — the prepared request, and the whole single-run outcome, are identical
whether a temporary message is supplied or `None`. -/
theorem C9_temporary_message_unused (env : RunEnv) (t : Option Message)
    (hist : List Message) :
    prepare_messages { env with tempMsg := t } hist =
      prepare_messages { env with tempMsg := none } hist ∧
    run_once { env with tempMsg := t } = run_once { env with tempMsg := none } :=
  ⟨rfl, rfl⟩

/-- A concrete `_run_once` environment in which token counting always
raises while the transport and the interpreter succeed. -/
def envTokenRaise : RunEnv :=
  { fetchAll := .ok [],
    sysPrompt := { role := some "system", content := "sys" },
    autoCount := 0, accumulated := "",
    tokenCounter := fun _ => .error "token counting failed",
    contextWindow := 200000,
    applyCache := fun ms => ms, validateCache := fun ms => ms,
    compress := fun ms _ => ms, compressOmit := fun ms _ => ms,
    tempMsg := none,
    llmCall := fun _ => .ok "raw",
    interpret := fun _ _ => .ok [Chunk.finish (some "stop")] }

/-- C7 counterexample: in `envTokenRaise` the token counter raises on every
input, yet `_run_once` does not return the `{type: status, status: error}`
dictionary — the exception is swallowed by the inner `try/except` (logged
only) and the run proceeds to a normal chunk stream. -/
theorem C7_counterexample :
    envTokenRaise.tokenCounter [] = .error "token counting failed" ∧
    run_once envTokenRaise = .stream [Chunk.finish (some "stop")] := by
  exact ⟨rfl, by decide⟩

/-- C7 (amended): no exception propagates out of `_run_once`, but only
transport-call and interpreter hand-off exceptions become the terminal
`{type: status, status: error, message}` record — exactly those, as this
characterization shows; token-counting and compression exceptions are
swallowed by inner handlers (the run proceeds), and storage failures on
the history load are absorbed inside `get_llm_messages`. -/
theorem C7_error_dict_characterization (env : RunEnv) (m : String) :
    run_once env = .errorDict m ↔
      (env.llmCall (prepare_messages env (get_llm_messages env.fetchAll)) =
        .error m ∨
       ∃ resp,
         env.llmCall (prepare_messages env (get_llm_messages env.fetchAll)) =
           .ok resp ∧
         env.interpret resp (prepare_messages env (get_llm_messages env.fetchAll)) =
           .error m) := by
  unfold run_once
  cases hc : env.llmCall (prepare_messages env (get_llm_messages env.fetchAll)) with
  | error e => simp [hc]
  | ok resp =>
    cases hi : env.interpret resp (prepare_messages env (get_llm_messages env.fetchAll)) with
    | error e =>
      simp only [hi, hc]
      constructor
      · intro h
        right
        exact ⟨resp, rfl, by injection h with h; rw [h] at hi; exact hi ▸ rfl⟩
      · rintro (h | ⟨r, hr, hintr⟩)
        · exact absurd h (by simp)
        · injection hr with hr
          subst hr
          rw [hi] at hintr
          injection hintr with hh
          rw [hh]
    | ok chunks =>
      simp only [hi, hc]
      constructor
      · intro h; exact absurd h (by simp)
      · rintro (h | ⟨r, hr, hintr⟩)
        · exact absurd h (by simp)
        · injection hr with hr
          subst hr
          rw [hi] at hintr
          exact absurd hintr (by simp)

/-- C6: whenever the prepared request's count exceeds the safe limit, the
primary compression pass is invoked targeting exactly the safe limit; and
when the recounted result still exceeds the safe limit, the omission pass
is invoked targeting `safe_limit - 10_000`, its output is used as-is, and
no further token count happens (the event list ends at the omission). -/
theorem C6_compression_targets
    (tc : List Message → Except String Nat) (W : Int)
    (compress omitPass : List Message → Int → List Message)
    (prepared : List Message) (final : Nat)
    (h1 : tc prepared = .ok final) (h2 : (final : Int) > safe_limit W) :
    (∃ evs, (budgetBlock tc W compress omitPass prepared).2 =
        .counted final :: .primary (safe_limit W) :: evs) ∧
    (∀ cc : Nat, tc (compress prepared (safe_limit W)) = .ok cc →
      (cc : Int) > safe_limit W →
      budgetBlock tc W compress omitPass prepared =
        (omitPass (compress prepared (safe_limit W)) (safe_limit W - 10000),
         [.counted final, .primary (safe_limit W), .counted cc,
          .omission (safe_limit W - 10000)])) := by
  constructor
  · cases h3 : tc (compress prepared (safe_limit W)) with
    | error e => exact ⟨[], by simp [budgetBlock, h1, h3, if_pos h2]⟩
    | ok cc =>
      by_cases h4 : (cc : Int) > safe_limit W
      · exact ⟨[.counted cc, .omission (safe_limit W - 10000)],
          by simp [budgetBlock, h1, h3, if_pos h2, if_pos h4]⟩
      · exact ⟨[.counted cc], by simp [budgetBlock, h1, h3, if_pos h2, if_neg h4]⟩
  · intro cc h3 h4
    simp [budgetBlock, h1, h3, if_pos h2, if_pos h4]

/-- C6 witness: a window of `50_000` gives safe limit `40_000`; a counter
pinned at `50_000` forces both passes, the omission pass targeting
`30_000`. -/
theorem C6_compression_targets_witness :
    (budgetBlock (fun _ => .ok 50000) 50000 (fun ms _ => ms) (fun _ _ => [])
        [{ role := some "system", content := "s" }]).2 =
      .counted 50000 :: .primary 40000 ::
        [.counted 50000, .omission 30000] ∧
    budgetBlock (fun _ => .ok 50000) 50000 (fun ms _ => ms) (fun _ _ => [])
        [{ role := some "system", content := "s" }] =
      ([], [.counted 50000, .primary 40000, .counted 50000, .omission 30000]) := by
  have h := C6_compression_targets (fun _ => .ok 50000) 50000
    (fun ms _ => ms) (fun _ _ => [])
    [{ role := some "system", content := "s" }] 50000 rfl (by decide)
  have h2 := h.2 50000 rfl (by decide)
  refine ⟨?_, ?_⟩
  · rw [h2]; decide
  · rw [h2]; decide

/-- Stripping cache marks never changes a message's role. -/
theorem role_of_stripMark_eq {a b : Message} (h : stripMark a = stripMark b) :
    a.role = b.role := by
  have hc := congrArg Message.role h
  simpa [stripMark] using hc

/-- Modelled from the spec: the Cache Annotator contract of §4.3 — the
missing `core/utils/llm_cache_utils` code.  `apply_cache_to_messages` and
`validate_cache_blocks` are pure functions that only place, remove or
repair cache markers on the given messages: apart from cache marks the
list is returned unchanged. -/
def MarkOnly (f : List Message → List Message) : Prop :=
  ∀ ms, (f ms).map stripMark = ms.map stripMark

/-- Modelled from the spec: the structural part of the Context Compressor
contract of §4.4 — the missing `core/agentpress/context_manager` code.
The pinned system prompt at the head is never removed or altered, and
summarizing, truncating or omitting conversation content only produces
tail messages whose role already occurs in the input tail. -/
def CompressorShape (g : List Message → Int → List Message) : Prop :=
  ∀ ms t, (g ms t).head? = ms.head? ∧
    ∀ m ∈ (g ms t).tail, m.role ∈ ms.tail.map Message.role

/-- The running invariant of the preparation pipeline: the list is the
engine's system prompt (up to cache marks) followed only by
non-`system`-role messages. -/
def HeadSysOnly (sys : Message) (l : List Message) : Prop :=
  ∃ h t, l = h :: t ∧ stripMark h = stripMark sys ∧
    ∀ m ∈ t, m.role ≠ some "system"

/-- Two lists equal up to cache marks have the same roles, memberwise. -/
theorem exists_role_eq_of_stripMark_map_eq {a b : List Message}
    (h : a.map stripMark = b.map stripMark) :
    ∀ m ∈ a, ∃ x ∈ b, x.role = m.role := by
  intro m hm
  have h1 : stripMark m ∈ b.map stripMark := by
    rw [← h]; exact List.mem_map_of_mem _ hm
  rcases List.mem_map.mp h1 with ⟨x, hx, hxe⟩
  exact ⟨x, hx, role_of_stripMark_eq hxe⟩

/-- A mark-only transformation preserves the pipeline invariant. -/
theorem headSysOnly_markOnly {f : List Message → List Message}
    (hf : MarkOnly f) {sys : Message} {l : List Message}
    (h : HeadSysOnly sys l) : HeadSysOnly sys (f l) := by
  rcases h with ⟨h0, t, rfl, hs, ht⟩
  have hmap := hf (h0 :: t)
  cases hfl : f (h0 :: t) with
  | nil => rw [hfl] at hmap; simp at hmap
  | cons h1 t1 =>
    rw [hfl] at hmap
    simp only [List.map_cons, List.cons.injEq] at hmap
    refine ⟨h1, t1, rfl, hmap.1.trans hs, ?_⟩
    intro m hm
    rcases exists_role_eq_of_stripMark_map_eq hmap.2 m hm with ⟨x, hx, hxe⟩
    rw [← hxe]; exact ht x hx

/-- A compressor respecting the spec's shape contract preserves the
pipeline invariant. -/
theorem headSysOnly_compressor {g : List Message → Int → List Message}
    (hg : CompressorShape g) {sys : Message} {l : List Message} (budget : Int)
    (h : HeadSysOnly sys l) : HeadSysOnly sys (g l budget) := by
  rcases h with ⟨h0, tl, rfl, hs, htl⟩
  rcases hg (h0 :: tl) budget with ⟨hhead, htail⟩
  cases hgl : g (h0 :: tl) budget with
  | nil => rw [hgl] at hhead; simp at hhead
  | cons h1 t1 =>
    rw [hgl] at hhead htail
    simp only [List.head?_cons, Option.some.injEq] at hhead
    refine ⟨h1, t1, rfl, hhead ▸ hs, ?_⟩
    intro m hm
    have hmem := htail m (by simpa using hm)
    rcases List.mem_map.mp hmem with ⟨x, hx, hxe⟩
    rw [← hxe]; exact htl x (by simpa using hx)

/-- The token-budget block preserves the pipeline invariant whenever both
compression passes respect the spec's shape contract. -/
theorem headSysOnly_budgetBlock
    {tc : List Message → Except String Nat} {W : Int}
    {compress omitPass : List Message → Int → List Message}
    {prepared : List Message} {sys : Message}
    (hc : CompressorShape compress) (ho : CompressorShape omitPass)
    (h : HeadSysOnly sys prepared) :
    HeadSysOnly sys (budgetBlock tc W compress omitPass prepared).1 := by
  cases htc : tc prepared with
  | error e => simpa [budgetBlock, htc] using h
  | ok final =>
    by_cases h2 : (final : Int) > safe_limit W
    · cases h3 : tc (compress prepared (safe_limit W)) with
      | error e =>
        simpa [budgetBlock, htc, h3, if_pos h2] using
          headSysOnly_compressor hc _ h
      | ok cc =>
        by_cases h4 : (cc : Int) > safe_limit W
        · simpa [budgetBlock, htc, h3, if_pos h2, if_pos h4] using
            headSysOnly_compressor ho _ (headSysOnly_compressor hc _ h)
        · simpa [budgetBlock, htc, h3, if_pos h2, if_neg h4] using
            headSysOnly_compressor hc _ h
    · simpa [budgetBlock, htc, if_neg h2] using h

/-- On a list satisfying the pipeline invariant the defensive collapse is
the identity: exactly one `system`-role message is present. -/
theorem dedupSystem_of_headSysOnly {sys : Message} {l : List Message}
    (hsr : sys.role = some "system") (h : HeadSysOnly sys l) :
    dedupSystem l = l := by
  rcases h with ⟨h0, t, rfl, hs, ht⟩
  have hh0 : h0.role = some "system" := (role_of_stripMark_eq hs).trans hsr
  have htf : t.filter (fun m => m.role == some "system") = [] := by
    rw [List.filter_eq_nil_iff]
    intro m hm
    simpa using ht m hm
  unfold dedupSystem
  rw [List.filter_cons_of_pos (by simpa using hh0), htf]
  simp

/-- The filtered history contains no `system`-role message. -/
theorem filteredHistory_no_system (hist : List Message) :
    ∀ m ∈ filteredHistory hist, m.role ≠ some "system" := by
  intro m hm
  have h2 := (List.mem_filter.mp hm).2
  simpa using h2

/-- The initial prepared request satisfies the pipeline invariant. -/
theorem headSysOnly_initialPrepared (env : RunEnv) (hist : List Message) :
    HeadSysOnly env.sysPrompt (initialPrepared env hist) := by
  unfold initialPrepared
  split
  · refine ⟨env.sysPrompt,
      filteredHistory hist ++ [{ role := some "assistant", content := env.accumulated }],
      by simp, rfl, ?_⟩
    intro m hm
    rcases List.mem_append.mp hm with h | h
    · exact filteredHistory_no_system hist m h
    · simp only [List.mem_singleton] at h
      subst h
      simp
  · exact ⟨env.sysPrompt, filteredHistory hist, rfl, rfl,
      filteredHistory_no_system hist⟩

/-- C2: whatever the fetched history contains — zero, one, or many
`system`-role messages — the list handed to the LLM transport holds
exactly one `system`-role message: the engine's own system prompt (up to
cache marks), in leading position, with every later message
non-`system`.  The cache annotator and both compression passes are taken
at their spec contracts (`MarkOnly`, `CompressorShape`). -/
theorem C2_single_system_message (env : RunEnv) (hist : List Message)
    (hsys : env.sysPrompt.role = some "system")
    (hac : MarkOnly env.applyCache) (hvc : MarkOnly env.validateCache)
    (hcp : CompressorShape env.compress) (hom : CompressorShape env.compressOmit) :
    ∃ h t, prepare_messages env hist = h :: t ∧
      stripMark h = stripMark env.sysPrompt ∧ h.role = some "system" ∧
      ∀ m ∈ t, m.role ≠ some "system" := by
  have step2 : HeadSysOnly env.sysPrompt (annotatedPrepared env hist) := by
    unfold annotatedPrepared
    split
    · exact headSysOnly_markOnly hvc
        (headSysOnly_markOnly hac (headSysOnly_initialPrepared env hist))
    · exact headSysOnly_initialPrepared env hist
  have step3 : HeadSysOnly env.sysPrompt
      (budgetBlock env.tokenCounter env.contextWindow env.compress
        env.compressOmit (annotatedPrepared env hist)).1 :=
    headSysOnly_budgetBlock hcp hom step2
  have hded := dedupSystem_of_headSysOnly hsys step3
  rcases step3 with ⟨h0, t0, heq, hs0, ht0⟩
  refine ⟨h0, t0, ?_, hs0, (role_of_stripMark_eq hs0).trans hsys, ht0⟩
  unfold prepare_messages
  rw [hded, heq]

/-- C2 witness: a five-message history carrying two injected `system`
messages, with identity annotators and compressors (which satisfy the
spec contracts), yields a transport list led by the engine's prompt with
no other `system` message. -/
theorem C2_single_system_message_witness :
    ∃ h t,
      prepare_messages
        { fetchAll := .ok [],
          sysPrompt := { role := some "system", content := "engine prompt" },
          autoCount := 0, accumulated := "",
          tokenCounter := fun _ => .ok 400, contextWindow := 200000,
          applyCache := fun ms => ms, validateCache := fun ms => ms,
          compress := fun ms _ => ms, compressOmit := fun ms _ => ms,
          tempMsg := none, llmCall := fun _ => .ok "raw",
          interpret := fun _ _ => .ok [] }
        [{ role := some "system", content := "injected one" },
         { role := some "user", content := "hi" },
         { role := some "system", content := "injected two" },
         { role := some "assistant", content := "hello" },
         { role := some "user", content := "go on" }] = h :: t ∧
      stripMark h =
        stripMark { role := some "system", content := "engine prompt" } ∧
      h.role = some "system" ∧ ∀ m ∈ t, m.role ≠ some "system" := by
  exact C2_single_system_message _ _ rfl
    (fun ms => rfl) (fun ms => rfl)
    (fun ms t => ⟨rfl, fun m hm => List.mem_map_of_mem _ hm⟩)
    (fun ms t => ⟨rfl, fun m hm => List.mem_map_of_mem _ hm⟩)

/-- `charsStartWith needle hay`: the needle is an initial segment of the
haystack. -/
def charsStartWith : List Char → List Char → Bool
  | [], _ => true
  | _ :: _, [] => false
  | a :: as, b :: bs => a == b && charsStartWith as bs

/-- `containsSub needle hay`: the needle occurs contiguously in the
haystack — Python's `needle in haystack` for strings. -/
def containsSub (needle : List Char) : List Char → Bool
  | [] => charsStartWith needle []
  | c :: rest => charsStartWith needle (c :: rest) || containsSub needle rest

/-- The provider-overload test of the driver (`thread_manager.py`,
line 767): `"AnthropicException - Overloaded" in str(e)`. -/
def overloaded (msg : String) : Bool :=
  containsSub "AnthropicException - Overloaded".toList msg.toList

/-- Python `str.replace(pattern, repl)`, fuelled for structural recursion:
replace every non-overlapping occurrence of the pattern, left to right
(no-op for an empty pattern).  A nonempty match consumes at least one
character, so fuel equal to the input length always suffices. -/
def replaceSubAux (pattern repl : List Char) : Nat → List Char → List Char
  | _, [] => []
  | 0, l => l
  | fuel + 1, c :: rest =>
    if !pattern.isEmpty && charsStartWith pattern (c :: rest) then
      repl ++ replaceSubAux pattern repl fuel ((c :: rest).drop pattern.length)
    else c :: replaceSubAux pattern repl fuel rest

/-- Python `str.replace(pattern, repl)` on character lists. -/
def replaceSub (pattern repl l : List Char) : List Char :=
  replaceSubAux pattern repl l.length l

/-- The fallback model rewrite (`thread_manager.py`, lines 770–772): strip
the dated suffix `-20250514` (`llm_model.replace("-20250514", "")`) and
route through `openrouter/`. -/
def rerouteModel (model : String) : String :=
  "openrouter/" ++ String.mk (replaceSub "-20250514".toList [] model.toList)

/-- The informational chunk emitted when the auto-continue ceiling is
reached (`thread_manager.py`, lines 797–800). -/
def limitChunk (maxAC : Nat) : Chunk :=
  .content ("\n[Agent reached maximum auto-continue limit of " ++
    toString maxAC ++ "]")

/-- The exception text of Python's `json.loads(None)` (`TypeError`), raised
when a status-shaped chunk has no `content` key (`thread_manager.py`,
line 751). -/
def jsonLoadsNoneMsg : String :=
  "the JSON object must be str, bytes or bytearray, not NoneType"

/-- Outcome of the driver's `async for` over one iteration's chunks: the
chunks forwarded to the caller, the auto-continue counter, the exception
that aborted the loop (if any), and the `auto_continue` flag. -/
structure ChunkOut where
  yielded : List Chunk
  count : Nat
  exn : Option String
  ac : Bool
deriving DecidableEq, Repr

/-- Forward one chunk to the caller ahead of the rest of the loop's
output. -/
def prependY (ch : Chunk) (o : ChunkOut) : ChunkOut :=
  { o with yielded := ch :: o.yielded }

/-- The chunk-inspection loop of `auto_continue_wrapper`
(`thread_manager.py`, lines 731–758): a `finish` chunk with reason
`tool_calls` is suppressed and counted when the ceiling is nonzero; a
`finish` with reason `xml_tool_limit_reached` clears `auto_continue` but
is forwarded; a `status` chunk whose decoded payload reports
`finish_reason = "length"` is suppressed and counted (no ceiling guard on
this path); a `status` chunk whose `content` does not decode raises out
of the loop; every other chunk is forwarded unchanged, in order. -/
def processChunks (maxAC : Nat) : List Chunk → Nat → Bool → ChunkOut
  | [], count, ac => ⟨[], count, none, ac⟩
  | ch :: rest, count, ac =>
    match ch with
    | .finish r =>
      if r == some "tool_calls" then
        if maxAC > 0 then processChunks maxAC rest (count + 1) true
        else prependY ch (processChunks maxAC rest count ac)
      else if r == some "xml_tool_limit_reached" then
        prependY ch (processChunks maxAC rest count false)
      else prependY ch (processChunks maxAC rest count ac)
    | .status ef =>
      if ef == some "length" then processChunks maxAC rest (count + 1) true
      else prependY ch (processChunks maxAC rest count ac)
    | .statusBad m => ⟨[], count, some m, ac⟩
    | .statusError _ => ⟨[], count, some jsonLoadsNoneMsg, ac⟩
    | .content _ => prependY ch (processChunks maxAC rest count ac)
    | .toolCall _ => prependY ch (processChunks maxAC rest count ac)

/-- What one `_run_once` result produced, as the while loop sees it: either
the run ends (error chunk emitted or natural stop), or the loop goes
around again with an updated counter and model. -/
inductive IterStep where
  | terminal (yielded : List Chunk)
  | continueRun (yielded : List Chunk) (count : Nat) (newModel : String)
deriving DecidableEq, Repr

/-- The driver's `except` clause (`thread_manager.py`, lines 766–783): an
overload-matching exception reroutes the model and retries without
stopping; any other exception appends one
`{type: status, status: error}` chunk and ends the run. -/
def exceptTail (y : List Chunk) (c : Nat) (m : String) (model : String) : IterStep :=
  if overloaded m then .continueRun y c (rerouteModel model)
  else .terminal (y ++ [Chunk.statusError ("Error in thread processing: " ++ m)])

/-- One `_run_once` call as the driver observes it: the error dictionary
`_run_once` returns when its body raised; an exception out of the
`await _run_once` call itself (outer `except`, lines 784–792); or a chunk
stream, optionally ending in an exception raised by the generator. -/
inductive IterResult where
  | errorDict (message : String)
  | raised (message : String)
  | stream (chunks : List Chunk) (ending : Option String)
deriving DecidableEq, Repr

/-- Process one loop iteration (`thread_manager.py`, lines 720–792): an
error dictionary is yielded and ends the run; an exception from
`_run_once` itself yields one error chunk and ends the run; a stream has
its chunks inspected, after which an exception (from a bad status payload
or from the generator) goes through the `except` clause, and otherwise
the `auto_continue` flag decides between another loop and a normal
stop. -/
def processIter (maxAC : Nat) (r : IterResult) (count : Nat) (model : String) : IterStep :=
  match r with
  | .errorDict m => .terminal [Chunk.statusError m]
  | .raised m => .terminal [Chunk.statusError ("Error executing thread: " ++ m)]
  | .stream cs ending =>
    let o := processChunks maxAC cs count false
    match o.exn with
    | some m => exceptTail o.yielded o.count m model
    | none =>
      match ending with
      | some m => exceptTail o.yielded o.count m model
      | none =>
        if o.ac then .continueRun o.yielded o.count model
        else .terminal o.yielded

/-- The observable outcome of one driver run: the chunks the caller saw, in
order; the `(model, auto_continue_count)` pair of each `_run_once`
invocation, in order; and whether the run ended through the
auto-continue-ceiling branch. -/
structure DriverTrace where
  chunks : List Chunk
  calls : List (String × Nat)
  hitLimit : Bool
deriving DecidableEq, Repr

/-- The `while` loop of `auto_continue_wrapper` (`thread_manager.py`,
lines 711–800), driven by the list of successive `_run_once` results.
The loop runs while `auto_continue` holds and the ceiling is not reached
(`native_max_auto_continues == 0 or auto_continue_count < ...`); when it
exits with `auto_continue` still set and the counter at the ceiling, it
emits exactly the one informational limit chunk.  `none` means the
supplied result list ran out while the loop still wanted another
iteration (not a behavior of the code, whose `_run_once` always yields a
result). -/
def autoContinueLoop (maxAC : Nat) : String → Nat → List IterResult → Option DriverTrace
  | _, count, [] =>
    if maxAC = 0 ∨ count < maxAC then none
    else some ⟨[limitChunk maxAC], [], true⟩
  | model, count, r :: rest =>
    if maxAC = 0 ∨ count < maxAC then
      match processIter maxAC r count model with
      | .terminal y => some ⟨y, [(model, count)], false⟩
      | .continueRun y c m =>
        match autoContinueLoop maxAC m c rest with
        | none => none
        | some t => some ⟨y ++ t.chunks, (model, count) :: t.calls, t.hitLimit⟩
    else some ⟨[limitChunk maxAC], [], true⟩

/-- `auto_continue_wrapper`: the loop entered with `auto_continue = True`
and `auto_continue_count = 0`. -/
def auto_continue_wrapper (maxAC : Nat) (model : String)
    (results : List IterResult) : Option DriverTrace :=
  autoContinueLoop maxAC model 0 results


/-- C8: a mid-stream exception matching the fixed overload substring does
not stop the run — the driver rewrites the model (dated suffix stripped,
`openrouter/` route prepended, per `rerouteModel`) and retries the same
iteration with the counter unchanged; a mid-stream exception not matching
the substring appends exactly one `{type: status, status: error}` chunk
and terminates the run (that call is the last, no further `_run_once`
happens). -/
theorem C8_overload_fallback (maxAC count : Nat) (model m : String)
    (cs : List Chunk) (y : List Chunk) (rest : List IterResult)
    (hk : count < maxAC)
    (hpc : processChunks maxAC cs count false = ⟨y, count, none, false⟩) :
    (overloaded m = true →
      autoContinueLoop maxAC model count (.stream cs (some m) :: rest) =
        (match autoContinueLoop maxAC (rerouteModel model) count rest with
         | none => none
         | some t => some ⟨y ++ t.chunks, (model, count) :: t.calls, t.hitLimit⟩)) ∧
    (overloaded m = false →
      autoContinueLoop maxAC model count (.stream cs (some m) :: rest) =
        some ⟨y ++ [Chunk.statusError ("Error in thread processing: " ++ m)],
          [(model, count)], false⟩) := by
  have hcond : maxAC = 0 ∨ count < maxAC := Or.inr hk
  refine ⟨fun hov => ?_, fun hov => ?_⟩
  · simp [autoContinueLoop, hcond, processIter, hpc, exceptTail, hov]
  · simp [autoContinueLoop, hcond, processIter, hpc, exceptTail, hov]

/-- C8 witness: an overloaded exception after a forwarded content chunk
retries with the rerouted model (`claude-sonnet-4-20250514` becomes
`openrouter/claude-sonnet-4`) and the counter still `0`; a plain
exception ends the run with one error chunk after the same prefix. -/
theorem C8_overload_fallback_witness :
    auto_continue_wrapper 25 "claude-sonnet-4-20250514"
      [.stream [Chunk.content "partial"] (some "AnthropicException - Overloaded x"),
       .stream [Chunk.finish (some "stop")] none] =
      some { chunks := [Chunk.content "partial", Chunk.finish (some "stop")],
             calls := [("claude-sonnet-4-20250514", 0), ("openrouter/claude-sonnet-4", 0)],
             hitLimit := false } ∧
    auto_continue_wrapper 25 "claude-sonnet-4-20250514"
      [.stream [Chunk.content "partial"] (some "plain failure"),
       .stream [Chunk.finish (some "stop")] none] =
      some { chunks := [Chunk.content "partial",
                        Chunk.statusError "Error in thread processing: plain failure"],
             calls := [("claude-sonnet-4-20250514", 0)],
             hitLimit := false } := by
  have h := C8_overload_fallback 25 0 "claude-sonnet-4-20250514"
    "AnthropicException - Overloaded x" [Chunk.content "partial"]
    [Chunk.content "partial"] [.stream [Chunk.finish (some "stop")] none]
    (by decide) (by decide)
  have h2 := C8_overload_fallback 25 0 "claude-sonnet-4-20250514"
    "plain failure" [Chunk.content "partial"]
    [Chunk.content "partial"] [.stream [Chunk.finish (some "stop")] none]
    (by decide) (by decide)
  constructor
  · show autoContinueLoop 25 "claude-sonnet-4-20250514" 0 _ = _
    rw [h.1 (by decide)]
    decide
  · show autoContinueLoop 25 "claude-sonnet-4-20250514" 0 _ = _
    rw [h2.2 (by decide)]
    decide

/-- Forwarding a chunk leaves the loop counter unchanged. -/
theorem prependY_count (ch : Chunk) (o : ChunkOut) : (prependY ch o).count = o.count := rfl

/-- Forwarding a chunk leaves the recorded exception unchanged. -/
theorem prependY_exn (ch : Chunk) (o : ChunkOut) : (prependY ch o).exn = o.exn := rfl

/-- Forwarding a chunk leaves the `auto_continue` flag unchanged. -/
theorem prependY_ac (ch : Chunk) (o : ChunkOut) : (prependY ch o).ac = o.ac := rfl

/-- Forwarding a chunk puts it in front of the remaining output. -/
theorem prependY_yielded (ch : Chunk) (o : ChunkOut) :
    (prependY ch o).yielded = ch :: o.yielded := rfl

/-- The auto-continue counter never decreases across the chunk loop. -/
theorem processChunks_count_le (maxAC : Nat) :
    ∀ (cs : List Chunk) (count : Nat) (ac : Bool),
      count ≤ (processChunks maxAC cs count ac).count := by
  intro cs
  induction cs with
  | nil => intro count ac; simp [processChunks]
  | cons ch rest ih =>
    intro count ac
    cases ch with
    | finish r =>
      simp only [processChunks]
      split
      · split
        · exact Nat.le_trans (Nat.le_succ _) (ih _ _)
        · rw [prependY_count]; exact ih _ _
      · split
        · rw [prependY_count]; exact ih _ _
        · rw [prependY_count]; exact ih _ _
    | status ef =>
      simp only [processChunks]
      split
      · exact Nat.le_trans (Nat.le_succ _) (ih _ _)
      · rw [prependY_count]; exact ih _ _
    | statusBad m => simp [processChunks]
    | statusError m => simp [processChunks]
    | content s =>
      simp only [processChunks]
      rw [prependY_count]; exact ih _ _
    | toolCall s =>
      simp only [processChunks]
      rw [prependY_count]; exact ih _ _


/-- If the chunk loop leaves `auto_continue` set, some chunk set it, and
every chunk that sets the flag also increments the counter: entering with
the flag clear, the counter strictly increased. -/
theorem processChunks_ac_increment (maxAC : Nat) :
    ∀ (cs : List Chunk) (count : Nat) (ac : Bool),
      (processChunks maxAC cs count ac).ac = true →
      (if ac then count else count + 1) ≤ (processChunks maxAC cs count ac).count := by
  intro cs
  induction cs with
  | nil =>
    intro count ac h
    simp only [processChunks] at h ⊢
    rw [h]
    simp
  | cons ch rest ih =>
    intro count ac h
    cases ch with
    | finish r =>
      cases h1 : (r == some "tool_calls") with
      | true =>
        by_cases h2 : maxAC > 0
        · simp only [processChunks, h1, if_true, if_pos h2] at h ⊢
          have hi := ih (count + 1) true h
          simp only [if_true] at hi
          cases ac <;> simp <;> omega
        · simp only [processChunks, h1, if_true, if_neg h2, prependY_ac,
            prependY_count] at h ⊢
          exact ih _ _ h
      | false =>
        cases h3 : (r == some "xml_tool_limit_reached") with
        | true =>
          simp only [processChunks, h1, h3, Bool.false_eq_true, if_false,
            if_true, prependY_ac, prependY_count] at h ⊢
          have hi := ih count false h
          simp only [Bool.false_eq_true, if_false] at hi
          cases ac <;> simp <;> omega
        | false =>
          simp only [processChunks, h1, h3, Bool.false_eq_true, if_false,
            prependY_ac, prependY_count] at h ⊢
          exact ih _ _ h
    | status ef =>
      cases h1 : (ef == some "length") with
      | true =>
        simp only [processChunks, h1, if_true] at h ⊢
        have hi := ih (count + 1) true h
        simp only [if_true] at hi
        cases ac <;> simp <;> omega
      | false =>
        simp only [processChunks, h1, Bool.false_eq_true, if_false,
          prependY_ac, prependY_count] at h ⊢
        exact ih _ _ h
    | statusBad m =>
      simp only [processChunks] at h ⊢
      rw [h]; simp
    | statusError m =>
      simp only [processChunks] at h ⊢
      rw [h]; simp
    | content s =>
      simp only [processChunks, prependY_ac, prependY_count] at h ⊢
      exact ih _ _ h
    | toolCall s =>
      simp only [processChunks, prependY_ac, prependY_count] at h ⊢
      exact ih _ _ h

/-- The exception recorded by the chunk loop comes from a bad-payload
status chunk in the stream or is the `json.loads(None)` TypeError text. -/
theorem processChunks_exn_mem (maxAC : Nat) :
    ∀ (cs : List Chunk) (count : Nat) (ac : Bool) (m : String),
      (processChunks maxAC cs count ac).exn = some m →
      Chunk.statusBad m ∈ cs ∨ m = jsonLoadsNoneMsg := by
  intro cs
  induction cs with
  | nil => intro count ac m h; simp [processChunks] at h
  | cons ch rest ih =>
    intro count ac m h
    cases ch with
    | finish r =>
      cases h1 : (r == some "tool_calls") with
      | true =>
        by_cases h2 : maxAC > 0
        · simp only [processChunks, h1, if_true, if_pos h2] at h
          rcases ih _ _ _ h with hm | hm
          · exact Or.inl (List.mem_cons_of_mem _ hm)
          · exact Or.inr hm
        · simp only [processChunks, h1, if_true, if_neg h2, prependY_exn] at h
          rcases ih _ _ _ h with hm | hm
          · exact Or.inl (List.mem_cons_of_mem _ hm)
          · exact Or.inr hm
      | false =>
        cases h3 : (r == some "xml_tool_limit_reached") with
        | true =>
          simp only [processChunks, h1, h3, Bool.false_eq_true, if_false,
            if_true, prependY_exn] at h
          rcases ih _ _ _ h with hm | hm
          · exact Or.inl (List.mem_cons_of_mem _ hm)
          · exact Or.inr hm
        | false =>
          simp only [processChunks, h1, h3, Bool.false_eq_true, if_false,
            prependY_exn] at h
          rcases ih _ _ _ h with hm | hm
          · exact Or.inl (List.mem_cons_of_mem _ hm)
          · exact Or.inr hm
    | status ef =>
      cases h1 : (ef == some "length") with
      | true =>
        simp only [processChunks, h1, if_true] at h
        rcases ih _ _ _ h with hm | hm
        · exact Or.inl (List.mem_cons_of_mem _ hm)
        · exact Or.inr hm
      | false =>
        simp only [processChunks, h1, Bool.false_eq_true, if_false,
          prependY_exn] at h
        rcases ih _ _ _ h with hm | hm
        · exact Or.inl (List.mem_cons_of_mem _ hm)
        · exact Or.inr hm
    | statusBad m2 =>
      simp only [processChunks, Option.some.injEq] at h
      subst h
      exact Or.inl (List.mem_cons_self _ _)
    | statusError m2 =>
      simp only [processChunks, Option.some.injEq] at h
      exact Or.inr h.symm
    | content s =>
      simp only [processChunks, prependY_exn] at h
      rcases ih _ _ _ h with hm | hm
      · exact Or.inl (List.mem_cons_of_mem _ hm)
      · exact Or.inr hm
    | toolCall s =>
      simp only [processChunks, prependY_exn] at h
      rcases ih _ _ _ h with hm | hm
      · exact Or.inl (List.mem_cons_of_mem _ hm)
      · exact Or.inr hm

/-- Every chunk the loop forwards comes from the input stream. -/
theorem processChunks_yield_mem (maxAC : Nat) :
    ∀ (cs : List Chunk) (count : Nat) (ac : Bool) (ch : Chunk),
      ch ∈ (processChunks maxAC cs count ac).yielded → ch ∈ cs := by
  intro cs
  induction cs with
  | nil => intro count ac ch h; simp [processChunks] at h
  | cons c0 rest ih =>
    intro count ac ch h
    cases c0 with
    | finish r =>
      cases h1 : (r == some "tool_calls") with
      | true =>
        by_cases h2 : maxAC > 0
        · simp only [processChunks, h1, if_true, if_pos h2] at h
          exact List.mem_cons_of_mem _ (ih _ _ _ h)
        · simp only [processChunks, h1, if_true, if_neg h2,
            prependY_yielded, List.mem_cons] at h
          rcases h with h | h
          · exact h ▸ List.mem_cons_self _ _
          · exact List.mem_cons_of_mem _ (ih _ _ _ h)
      | false =>
        cases h3 : (r == some "xml_tool_limit_reached") with
        | true =>
          simp only [processChunks, h1, h3, Bool.false_eq_true, if_false,
            if_true, prependY_yielded, List.mem_cons] at h
          rcases h with h | h
          · exact h ▸ List.mem_cons_self _ _
          · exact List.mem_cons_of_mem _ (ih _ _ _ h)
        | false =>
          simp only [processChunks, h1, h3, Bool.false_eq_true, if_false,
            prependY_yielded, List.mem_cons] at h
          rcases h with h | h
          · exact h ▸ List.mem_cons_self _ _
          · exact List.mem_cons_of_mem _ (ih _ _ _ h)
    | status ef =>
      cases h1 : (ef == some "length") with
      | true =>
        simp only [processChunks, h1, if_true] at h
        exact List.mem_cons_of_mem _ (ih _ _ _ h)
      | false =>
        simp only [processChunks, h1, Bool.false_eq_true, if_false,
          prependY_yielded, List.mem_cons] at h
        rcases h with h | h
        · exact h ▸ List.mem_cons_self _ _
        · exact List.mem_cons_of_mem _ (ih _ _ _ h)
    | statusBad m => simp [processChunks] at h
    | statusError m => simp [processChunks] at h
    | content s =>
      simp only [processChunks, prependY_yielded, List.mem_cons] at h
      rcases h with h | h
      · exact h ▸ List.mem_cons_self _ _
      · exact List.mem_cons_of_mem _ (ih _ _ _ h)
    | toolCall s =>
      simp only [processChunks, prependY_yielded, List.mem_cons] at h
      rcases h with h | h
      · exact h ▸ List.mem_cons_self _ _
      · exact List.mem_cons_of_mem _ (ih _ _ _ h)

/-- An iteration result that triggers no overload fallback: neither the
generator's closing exception nor any bad-status payload in the stream
matches the overload substring. -/
def overloadFreeIter : IterResult → Bool
  | .errorDict _ => true
  | .raised _ => true
  | .stream cs ending =>
    (match ending with
     | some m => !(overloaded m)
     | none => true) &&
    cs.all (fun ch =>
      match ch with
      | Chunk.statusBad m => !(overloaded m)
      | _ => true)

/-- The `json.loads(None)` TypeError text does not match the overload
substring. -/
theorem overloaded_jsonLoadsNoneMsg : overloaded jsonLoadsNoneMsg = false := by
  decide

/-- In an overload-free stream iteration, the exception the chunk loop
records never matches the overload substring. -/
theorem overloadFree_exn_false {maxAC : Nat} {cs : List Chunk}
    {ending : Option String} {count : Nat} {ac : Bool} {m : String}
    (hov : overloadFreeIter (.stream cs ending) = true)
    (hexn : (processChunks maxAC cs count ac).exn = some m) :
    overloaded m = false := by
  rcases processChunks_exn_mem maxAC cs count ac m hexn with hmem | hjson
  · have hall := ((Bool.and_eq_true _ _).mp hov).2
    have hx := List.all_eq_true.mp hall _ hmem
    simpa using hx
  · rw [hjson]
    exact overloaded_jsonLoadsNoneMsg

/-- In an overload-free stream iteration, the generator's own closing
exception never matches the overload substring. -/
theorem overloadFree_ending_false {cs : List Chunk} {m : String}
    (hov : overloadFreeIter (.stream cs (some m)) = true) :
    overloaded m = false := by
  have h1 := ((Bool.and_eq_true _ _).mp hov).1
  simpa using h1

/-- Under an overload-free iteration result, the loop only goes around
again through the `auto_continue` branch — which strictly incremented the
counter. -/
theorem processIter_continue_increment (maxAC : Nat) (r : IterResult)
    (count : Nat) (model : String) (y : List Chunk) (c : Nat) (m' : String)
    (hov : overloadFreeIter r = true)
    (h : processIter maxAC r count model = .continueRun y c m') :
    count + 1 ≤ c := by
  cases r with
  | errorDict m => simp [processIter] at h
  | raised m => simp [processIter] at h
  | stream cs ending =>
    simp only [processIter] at h
    cases hexn : (processChunks maxAC cs count false).exn with
    | some m =>
      simp only [hexn, exceptTail] at h
      rw [overloadFree_exn_false hov hexn] at h
      simp at h
    | none =>
      simp only [hexn] at h
      cases ending with
      | some m =>
        simp only [exceptTail] at h
        rw [overloadFree_ending_false hov] at h
        simp at h
      | none =>
        cases hac : (processChunks maxAC cs count false).ac with
        | false =>
          simp only [hac, Bool.false_eq_true, if_false] at h
          exact absurd h (by simp)
        | true =>
          simp only [hac, if_true] at h
          injection h with h1 h2 h3
          subst h2
          have hi := processChunks_ac_increment maxAC cs count false hac
          simpa using hi

/-- The forwarded prefix of an iteration that loops again comes entirely
from that iteration's stream. -/
theorem processIter_continue_yield_mem (maxAC : Nat) (r : IterResult)
    (count : Nat) (model : String) (y : List Chunk) (c : Nat) (m' : String)
    (h : processIter maxAC r count model = .continueRun y c m') :
    ∀ ch ∈ y, ∃ cs ending, r = .stream cs ending ∧ ch ∈ cs := by
  cases r with
  | errorDict m => simp [processIter] at h
  | raised m => simp [processIter] at h
  | stream cs ending =>
    intro ch hch
    refine ⟨cs, ending, rfl, ?_⟩
    simp only [processIter] at h
    cases hexn : (processChunks maxAC cs count false).exn with
    | some m =>
      simp only [hexn, exceptTail] at h
      split at h
      · injection h with h1 h2 h3
        subst h1
        exact processChunks_yield_mem maxAC cs count false ch hch
      · exact absurd h (by simp)
    | none =>
      simp only [hexn] at h
      cases ending with
      | some m =>
        simp only [exceptTail] at h
        split at h
        · injection h with h1 h2 h3
          subst h1
          exact processChunks_yield_mem maxAC cs count false ch hch
        · exact absurd h (by simp)
      | none =>
        cases hac : (processChunks maxAC cs count false).ac with
        | false =>
          simp only [hac, Bool.false_eq_true, if_false] at h
          exact absurd h (by simp)
        | true =>
          simp only [hac, if_true] at h
          injection h with h1 h2 h3
          subst h1
          exact processChunks_yield_mem maxAC cs count false ch hch

/-- Ceiling bound for the driver loop: entered at counter `count`, an
overload-free run makes at most `maxAC - count + 1` `_run_once` calls. -/
theorem autoContinueLoop_calls_le (maxAC : Nat) (hk : 0 < maxAC) :
    ∀ (results : List IterResult) (model : String) (count : Nat) (t : DriverTrace),
      (∀ r ∈ results, overloadFreeIter r = true) →
      autoContinueLoop maxAC model count results = some t →
      t.calls.length ≤ (maxAC - count) + 1 := by
  intro results
  induction results with
  | nil =>
    intro model count t hov hrun
    simp only [autoContinueLoop] at hrun
    split at hrun
    · exact absurd hrun (by simp)
    · injection hrun with h
      subst h
      simp
  | cons r rest ih =>
    intro model count t hov hrun
    simp only [autoContinueLoop] at hrun
    split at hrun
    case isTrue hcond =>
      have hcount : count < maxAC := by
        rcases hcond with h0 | h0
        · omega
        · exact h0
      cases hpi : processIter maxAC r count model with
      | terminal y =>
        simp only [hpi] at hrun
        injection hrun with h
        subst h
        simp
      | continueRun y c m2 =>
        simp only [hpi] at hrun
        cases hrec : autoContinueLoop maxAC m2 c rest with
        | none =>
          simp only [hrec] at hrun
          exact absurd hrun (by simp)
        | some t2 =>
          simp only [hrec] at hrun
          injection hrun with h
          subst h
          have hc := processIter_continue_increment maxAC r count model y c m2
            (hov r (List.mem_cons_self _ _)) hpi
          have hrecle := ih m2 c t2
            (fun x hx => hov x (List.mem_cons_of_mem _ hx)) hrec
          simp only [List.length_cons]
          omega
    case isFalse hcond =>
      injection hrun with h
      subst h
      simp

/-- An iteration result whose stream never already contains the
informational limit chunk (so occurrences of that chunk in the output are
attributable to the ceiling branch alone). -/
def noLimitIter (maxAC : Nat) : IterResult → Bool
  | .stream cs _ => !(cs.contains (limitChunk maxAC))
  | _ => true

/-- When the driver run ends through the ceiling branch, the limit chunk is
the final chunk and occurs exactly once. -/
theorem autoContinueLoop_limit (maxAC : Nat) :
    ∀ (results : List IterResult) (model : String) (count : Nat) (t : DriverTrace),
      (∀ r ∈ results, noLimitIter maxAC r = true) →
      autoContinueLoop maxAC model count results = some t →
      t.hitLimit = true →
      t.chunks.getLast? = some (limitChunk maxAC) ∧
      t.chunks.count (limitChunk maxAC) = 1 := by
  intro results
  induction results with
  | nil =>
    intro model count t hnl hrun hlim
    simp only [autoContinueLoop] at hrun
    split at hrun
    · exact absurd hrun (by simp)
    · injection hrun with h
      subst h
      constructor
      · simp
      · simp
  | cons r rest ih =>
    intro model count t hnl hrun hlim
    simp only [autoContinueLoop] at hrun
    split at hrun
    · cases hpi : processIter maxAC r count model with
      | terminal y =>
        simp only [hpi] at hrun
        injection hrun with h
        subst h
        simp at hlim
      | continueRun y c m2 =>
        simp only [hpi] at hrun
        cases hrec : autoContinueLoop maxAC m2 c rest with
        | none =>
          simp only [hrec] at hrun
          exact absurd hrun (by simp)
        | some t2 =>
          simp only [hrec] at hrun
          injection hrun with h
          subst h
          have hlim2 : t2.hitLimit = true := hlim
          have hih := ih m2 c t2
            (fun x hx => hnl x (List.mem_cons_of_mem _ hx)) hrec hlim2
          have hy : limitChunk maxAC ∉ y := by
            intro hmem
            rcases processIter_continue_yield_mem maxAC r count model y c m2
              hpi _ hmem with ⟨cs, ending, hr, hcs⟩
            have hnr := hnl r (List.mem_cons_self _ _)
            rw [hr] at hnr
            simp only [noLimitIter] at hnr
            have hncs : limitChunk maxAC ∉ cs := by simpa using hnr
            exact hncs hcs
          have hne : t2.chunks ≠ [] := by
            intro hnil
            rw [hnil] at hih
            simp at hih
          constructor
          · show (y ++ t2.chunks).getLast? = _
            rw [List.getLast?_append_of_ne_nil y hne]
            exact hih.1
          · show (y ++ t2.chunks).count (limitChunk maxAC) = 1
            rw [List.count_append, List.count_eq_zero.mpr hy, hih.2]
    · injection hrun with h
      subst h
      constructor
      · simp
      · simp

/-- C5: with ceiling `k > 0`, an overload-free run performs at most `k`
continuation iterations (at most `k + 1` `_run_once` calls in all), and a
run that ends through the ceiling branch — the model still wanting to
continue — emits the informational limit chunk exactly once, as its very
last chunk. -/
theorem C5_auto_continue_ceiling (k : Nat) (model : String)
    (results : List IterResult) (t : DriverTrace)
    (hk : 0 < k)
    (hov : ∀ r ∈ results, overloadFreeIter r = true)
    (hnl : ∀ r ∈ results, noLimitIter k r = true)
    (hrun : auto_continue_wrapper k model results = some t) :
    t.calls.length ≤ k + 1 ∧
    (t.hitLimit = true →
      t.chunks.getLast? = some (limitChunk k) ∧
      t.chunks.count (limitChunk k) = 1) := by
  constructor
  · have h := autoContinueLoop_calls_le k hk results model 0 t hov hrun
    simpa using h
  · intro hlim
    exact autoContinueLoop_limit k results model 0 t hnl hrun hlim

/-- C5 witness: ceiling `1`, a first iteration finishing with
`finish_reason = "tool_calls"`: the finish chunk is suppressed, one call
is made, the ceiling is hit, and the caller sees exactly the single
informational limit chunk, last. -/
theorem C5_auto_continue_ceiling_witness :
    auto_continue_wrapper 1 "gpt-5" [.stream [Chunk.finish (some "tool_calls")] none] =
      some { chunks := [limitChunk 1], calls := [("gpt-5", 0)], hitLimit := true } ∧
    1 ≤ 1 + 1 ∧
    [limitChunk 1].getLast? = some (limitChunk 1) ∧
    [limitChunk 1].count (limitChunk 1) = 1 := by
  have hrun : auto_continue_wrapper 1 "gpt-5"
      [.stream [Chunk.finish (some "tool_calls")] none] =
      some { chunks := [limitChunk 1], calls := [("gpt-5", 0)], hitLimit := true } := by
    decide
  have h := C5_auto_continue_ceiling 1 "gpt-5"
    [.stream [Chunk.finish (some "tool_calls")] none]
    { chunks := [limitChunk 1], calls := [("gpt-5", 0)], hitLimit := true }
    (by decide)
    (by intro r hr; simp only [List.mem_singleton] at hr; subst hr; decide)
    (by intro r hr; simp only [List.mem_singleton] at hr; subst hr; decide)
    hrun
  refine ⟨hrun, by simp, (h.2 rfl).1, (h.2 rfl).2⟩

/-- Chunks of `finish` or `status` shape (including the engine's own
`{type: status, status: error}` dictionaries, whose `type` is
`status`). -/
def terminalShaped : Chunk → Bool
  | .finish _ => true
  | .status _ => true
  | .statusBad _ => true
  | .statusError _ => true
  | .content _ => false
  | .toolCall _ => false

/-- The last chunk of a list is finish- or status-shaped. -/
def lastIsTerminal (l : List Chunk) : Bool :=
  match l.getLast? with
  | some ch => terminalShaped ch
  | none => false

/-- An iteration result whose stream, when it ends without an exception,
ends with a finish- or status-shaped chunk (what the response interpreter
produces). -/
def streamEndsTerminal : IterResult → Bool
  | .stream cs none => lastIsTerminal cs
  | _ => true

/-- A legal final chunk for the whole run: finish- or status-shaped, or
the informational auto-continue limit chunk. -/
def acceptableEnd (maxAC : Nat) (ch : Chunk) : Bool :=
  terminalShaped ch || (ch == limitChunk maxAC)

/-- If a stream ends with a finish- or status-shaped chunk and the chunk
loop neither raised nor left `auto_continue` set, the forwarded output
also ends with a finish- or status-shaped chunk. -/
theorem processChunks_last_terminal (maxAC : Nat) :
    ∀ (cs : List Chunk) (count : Nat) (ac : Bool),
      lastIsTerminal cs = true →
      (processChunks maxAC cs count ac).exn = none →
      (processChunks maxAC cs count ac).ac = false →
      ∃ ch, (processChunks maxAC cs count ac).yielded.getLast? = some ch ∧
        terminalShaped ch = true := by
  intro cs
  induction cs with
  | nil => intro count ac h; simp [lastIsTerminal] at h
  | cons c0 rest ih =>
    intro count ac hlast hexn hac
    cases hrest : rest with
    | nil =>
      subst hrest
      have hterm : terminalShaped c0 = true := by
        simpa [lastIsTerminal] using hlast
      cases c0 with
      | finish r =>
        cases h1 : (r == some "tool_calls") with
        | true =>
          by_cases h2 : maxAC > 0
          · simp only [processChunks, h1, if_true, if_pos h2] at hac
            simp [processChunks] at hac
          · simp only [processChunks, h1, if_true, if_neg h2,
              prependY_yielded] at hexn hac ⊢
            exact ⟨.finish r, by simp [processChunks], rfl⟩
        | false =>
          cases h3 : (r == some "xml_tool_limit_reached") with
          | true =>
            simp only [processChunks, h1, h3, Bool.false_eq_true, if_false,
              if_true, prependY_yielded] at hexn hac ⊢
            exact ⟨.finish r, by simp [processChunks], rfl⟩
          | false =>
            simp only [processChunks, h1, h3, Bool.false_eq_true, if_false,
              prependY_yielded] at hexn hac ⊢
            exact ⟨.finish r, by simp [processChunks], rfl⟩
      | status ef =>
        cases h1 : (ef == some "length") with
        | true =>
          simp only [processChunks, h1, if_true] at hac
          simp [processChunks] at hac
        | false =>
          simp only [processChunks, h1, Bool.false_eq_true, if_false,
            prependY_yielded] at hexn hac ⊢
          exact ⟨.status ef, by simp [processChunks], rfl⟩
      | statusBad m => simp [processChunks] at hexn
      | statusError m => simp [processChunks] at hexn
      | content s => simp [terminalShaped] at hterm
      | toolCall s => simp [terminalShaped] at hterm
    | cons c1 rest1 =>
      have hlast2 : lastIsTerminal rest = true := by
        rw [hrest] at hlast ⊢
        simpa [lastIsTerminal, List.getLast?_cons_cons] using hlast
      rw [← hrest] at *
      cases c0 with
      | finish r =>
        cases h1 : (r == some "tool_calls") with
        | true =>
          by_cases h2 : maxAC > 0
          · simp only [processChunks, h1, if_true, if_pos h2] at hexn hac ⊢
            exact ih _ _ hlast2 hexn hac
          · simp only [processChunks, h1, if_true, if_neg h2, prependY_exn,
              prependY_ac, prependY_yielded] at hexn hac ⊢
            rcases ih _ _ hlast2 hexn hac with ⟨ch, hch, hts⟩
            have hne : (processChunks maxAC rest count ac).yielded ≠ [] := by
              intro hz; rw [hz] at hch; simp at hch
            refine ⟨ch, ?_, hts⟩
            rcases List.exists_cons_of_ne_nil hne with ⟨a, l, hal⟩
            rw [hal] at hch ⊢
            rw [List.getLast?_cons_cons]
            exact hch
        | false =>
          cases h3 : (r == some "xml_tool_limit_reached") with
          | true =>
            simp only [processChunks, h1, h3, Bool.false_eq_true, if_false,
              if_true, prependY_exn, prependY_ac, prependY_yielded] at hexn hac ⊢
            rcases ih _ _ hlast2 hexn hac with ⟨ch, hch, hts⟩
            have hne : (processChunks maxAC rest count false).yielded ≠ [] := by
              intro hz; rw [hz] at hch; simp at hch
            refine ⟨ch, ?_, hts⟩
            rcases List.exists_cons_of_ne_nil hne with ⟨a, l, hal⟩
            rw [hal] at hch ⊢
            rw [List.getLast?_cons_cons]
            exact hch
          | false =>
            simp only [processChunks, h1, h3, Bool.false_eq_true, if_false,
              prependY_exn, prependY_ac, prependY_yielded] at hexn hac ⊢
            rcases ih _ _ hlast2 hexn hac with ⟨ch, hch, hts⟩
            have hne : (processChunks maxAC rest count ac).yielded ≠ [] := by
              intro hz; rw [hz] at hch; simp at hch
            refine ⟨ch, ?_, hts⟩
            rcases List.exists_cons_of_ne_nil hne with ⟨a, l, hal⟩
            rw [hal] at hch ⊢
            rw [List.getLast?_cons_cons]
            exact hch
      | status ef =>
        cases h1 : (ef == some "length") with
        | true =>
          simp only [processChunks, h1, if_true] at hexn hac ⊢
          exact ih _ _ hlast2 hexn hac
        | false =>
          simp only [processChunks, h1, Bool.false_eq_true, if_false,
            prependY_exn, prependY_ac, prependY_yielded] at hexn hac ⊢
          rcases ih _ _ hlast2 hexn hac with ⟨ch, hch, hts⟩
          have hne : (processChunks maxAC rest count ac).yielded ≠ [] := by
            intro hz; rw [hz] at hch; simp at hch
          refine ⟨ch, ?_, hts⟩
          rcases List.exists_cons_of_ne_nil hne with ⟨a, l, hal⟩
          rw [hal] at hch ⊢
          rw [List.getLast?_cons_cons]
          exact hch
      | statusBad m => simp [processChunks] at hexn
      | statusError m => simp [processChunks] at hexn
      | content s =>
        simp only [processChunks, prependY_exn, prependY_ac,
          prependY_yielded] at hexn hac ⊢
        rcases ih _ _ hlast2 hexn hac with ⟨ch, hch, hts⟩
        have hne : (processChunks maxAC rest count ac).yielded ≠ [] := by
          intro hz; rw [hz] at hch; simp at hch
        refine ⟨ch, ?_, hts⟩
        rcases List.exists_cons_of_ne_nil hne with ⟨a, l, hal⟩
        rw [hal] at hch ⊢
        rw [List.getLast?_cons_cons]
        exact hch
      | toolCall s =>
        simp only [processChunks, prependY_exn, prependY_ac,
          prependY_yielded] at hexn hac ⊢
        rcases ih _ _ hlast2 hexn hac with ⟨ch, hch, hts⟩
        have hne : (processChunks maxAC rest count ac).yielded ≠ [] := by
          intro hz; rw [hz] at hch; simp at hch
        refine ⟨ch, ?_, hts⟩
        rcases List.exists_cons_of_ne_nil hne with ⟨a, l, hal⟩
        rw [hal] at hch ⊢
        rw [List.getLast?_cons_cons]
        exact hch

/-- Every way an iteration ends the run leaves a finish- or status-shaped
chunk last, provided its stream (when it ended without an exception)
ended with one. -/
theorem processIter_terminal_last (maxAC : Nat) (r : IterResult) (count : Nat)
    (model : String) (y : List Chunk)
    (hterm : streamEndsTerminal r = true)
    (h : processIter maxAC r count model = .terminal y) :
    ∃ ch, y.getLast? = some ch ∧ terminalShaped ch = true := by
  cases r with
  | errorDict m =>
    simp only [processIter] at h
    injection h with h1
    subst h1
    exact ⟨.statusError m, rfl, rfl⟩
  | raised m =>
    simp only [processIter] at h
    injection h with h1
    subst h1
    exact ⟨.statusError ("Error executing thread: " ++ m), rfl, rfl⟩
  | stream cs ending =>
    simp only [processIter] at h
    cases hexn : (processChunks maxAC cs count false).exn with
    | some m =>
      simp only [hexn, exceptTail] at h
      split at h
      · exact absurd h (by simp)
      · injection h with h1
        subst h1
        exact ⟨_, List.getLast?_concat _, rfl⟩
    | none =>
      simp only [hexn] at h
      cases ending with
      | some m =>
        simp only [exceptTail] at h
        split at h
        · exact absurd h (by simp)
        · injection h with h1
          subst h1
          exact ⟨_, List.getLast?_concat _, rfl⟩
      | none =>
        cases hac : (processChunks maxAC cs count false).ac with
        | true =>
          simp only [hac, if_true] at h
          exact absurd h (by simp)
        | false =>
          simp only [hac, Bool.false_eq_true, if_false] at h
          injection h with h1
          subst h1
          have hlt : lastIsTerminal cs = true := by
            simpa [streamEndsTerminal] using hterm
          exact processChunks_last_terminal maxAC cs count false hlt hexn hac

/-- Whatever path the loop takes, the run's final chunk is finish- or
status-shaped or the ceiling's informational limit chunk. -/
theorem autoContinueLoop_last_acceptable (maxAC : Nat) :
    ∀ (results : List IterResult) (model : String) (count : Nat) (t : DriverTrace),
      (∀ r ∈ results, streamEndsTerminal r = true) →
      autoContinueLoop maxAC model count results = some t →
      ∃ ch, t.chunks.getLast? = some ch ∧ acceptableEnd maxAC ch = true := by
  intro results
  induction results with
  | nil =>
    intro model count t hterm hrun
    simp only [autoContinueLoop] at hrun
    split at hrun
    · exact absurd hrun (by simp)
    · injection hrun with h
      subst h
      exact ⟨limitChunk maxAC, by simp, by simp [acceptableEnd]⟩
  | cons r rest ih =>
    intro model count t hterm hrun
    simp only [autoContinueLoop] at hrun
    split at hrun
    · cases hpi : processIter maxAC r count model with
      | terminal y =>
        simp only [hpi] at hrun
        injection hrun with h
        subst h
        rcases processIter_terminal_last maxAC r count model y
          (hterm r (List.mem_cons_self _ _)) hpi with ⟨ch, hch, hts⟩
        exact ⟨ch, hch, by simp [acceptableEnd, hts]⟩
      | continueRun y c m2 =>
        simp only [hpi] at hrun
        cases hrec : autoContinueLoop maxAC m2 c rest with
        | none =>
          simp only [hrec] at hrun
          exact absurd hrun (by simp)
        | some t2 =>
          simp only [hrec] at hrun
          injection hrun with h
          subst h
          rcases ih m2 c t2 (fun x hx => hterm x (List.mem_cons_of_mem _ hx))
            hrec with ⟨ch, hch, hend⟩
          have hne : t2.chunks ≠ [] := by
            intro hz
            rw [hz] at hch
            simp at hch
          refine ⟨ch, ?_, hend⟩
          show (y ++ t2.chunks).getLast? = some ch
          rw [List.getLast?_append_of_ne_nil y hne]
          exact hch
    · injection hrun with h
      subst h
      exact ⟨limitChunk maxAC, by simp, by simp [acceptableEnd]⟩

/-- C4 (amended): provided each iteration's interpreter stream, when it
ends without raising, ends with a finish- or status-shaped chunk, the
caller-visible stream never ends silently: its final chunk is a finish
chunk, a status-shaped chunk (the engine's error dictionaries included),
or the single informational auto-continue-limit content chunk. -/
theorem C4_stream_termination (maxAC : Nat) (model : String)
    (results : List IterResult) (t : DriverTrace)
    (hterm : ∀ r ∈ results, streamEndsTerminal r = true)
    (hrun : auto_continue_wrapper maxAC model results = some t) :
    ∃ ch, t.chunks.getLast? = some ch ∧ acceptableEnd maxAC ch = true :=
  autoContinueLoop_last_acceptable maxAC results model 0 t hterm hrun

/-- C4 counterexample: with ceiling `1` and a first iteration finishing
with `finish_reason = "tool_calls"`, the run ends with the informational
limit chunk — a `content` chunk, neither a `finish` chunk nor a status
chunk, contradicting the claim that the stream always ends with a finish
or status/error chunk. -/
theorem C4_stream_end_counterexample :
    auto_continue_wrapper 1 "model-a"
      [.stream [Chunk.finish (some "tool_calls")] none] =
      some { chunks :=
               [Chunk.content "\n[Agent reached maximum auto-continue limit of 1]"],
             calls := [("model-a", 0)], hitLimit := true } ∧
    terminalShaped
      (Chunk.content "\n[Agent reached maximum auto-continue limit of 1]") =
      false := by
  decide

/-- C4 witness: a single iteration ending with `finish_reason = "stop"`
gives a run whose final chunk is that finish chunk. -/
theorem C4_stream_termination_witness :
    ∃ ch,
      (DriverTrace.chunks
        { chunks := [Chunk.finish (some "stop")], calls := [("gpt-5", 0)],
          hitLimit := false }).getLast? = some ch ∧
      acceptableEnd 25 ch = true := by
  have hrun : auto_continue_wrapper 25 "gpt-5"
      [.stream [Chunk.finish (some "stop")] none] =
      some { chunks := [Chunk.finish (some "stop")], calls := [("gpt-5", 0)],
             hitLimit := false } := by decide
  exact C4_stream_termination 25 "gpt-5" _ _
    (by intro r hr; simp only [List.mem_singleton] at hr; subst hr; decide)
    hrun
